import Mathlib

/-!
Verification of the regime-based trading bot (`bot.py`).

The development shallowly embeds the bot's data model and decision logic:
prices are modelled as exact rationals (`Rat`), the SQLite tables as Lean
lists, and code that can raise a Python exception as `Option`/`Except`
values.  Each definition mirrors one function or block of `bot.py`.
-/

/-- One OHLCV candle, a row of the `candles` table / of the pandas frame.
The `open` column is named `bopen` because `open` is a Lean keyword. -/
structure Bar where
  ts : Int
  bopen : Rat
  high : Rat
  low : Rat
  close : Rat
  volume : Rat
deriving DecidableEq

instance : Inhabited Bar := ⟨⟨0, 0, 0, 0, 0, 0⟩⟩

/-- The `Order` dataclass of `bot.py`.  `id` is `Option Nat` because the code
constructs new orders with `id=None` before SQLite assigns the rowid. -/
structure Order where
  id : Option Nat
  ts : Int
  side : String
  price : Rat
  amount : Rat
  stop : Rat
  target : Rat
  status : String
deriving DecidableEq

instance : Inhabited Order := ⟨⟨none, 0, "", 0, 0, 0, 0, ""⟩⟩

/-- The `orders` table of the SQLite database.  `nextId` models the
`AUTOINCREMENT` counter: it is strictly greater than every id ever used. -/
structure Database where
  orders : List Order
  nextId : Nat
deriving DecidableEq

/-- Result of one `trade_logic` call: the database after all writes of the
cycle, and `(decision, pnl)` when the call returns normally (`none` models a
Python exception escaping mid-call, after the writes already made). -/
structure CycleResult where
  db : Database
  out : Option (String × Rat)
deriving DecidableEq

/-- `df.iloc[-1]`: the last row of the frame (the current bar). -/
def lastBar (df : List Bar) : Bar :=
  df.getLastD default

/-- `series.max()` over a nonempty pandas series; 0 is only a junk default
for the empty case, which the theorems below exclude. -/
def listMax : List Rat → Rat
  | [] => 0
  | x :: xs => xs.foldl max x

/-- `series.min()`, as for `listMax`. -/
def listMin : List Rat → Rat
  | [] => 0
  | x :: xs => xs.foldl min x

/-- `df.iloc[-21:-1]`: the twenty bars preceding the current one (fewer when
the frame is short, exactly as the pandas slice clamps). -/
def window20 (df : List Bar) : List Bar :=
  df.dropLast.drop (df.length - 21)

/-- `series.tail(n)`. -/
def tailN (n : Nat) (l : List Rat) : List Rat :=
  l.drop (l.length - n)

/-- Insertion of one value into a sorted list, for `sort_rats`. -/
def insert_sorted (x : Rat) : List Rat → List Rat
  | [] => [x]
  | y :: ys => if x ≤ y then x :: y :: ys else y :: insert_sorted x ys

/-- Insertion sort; the computable stand-in for the sort inside
`pandas.Series.median`. -/
def sort_rats : List Rat → List Rat
  | [] => []
  | x :: xs => insert_sorted x (sort_rats xs)

/-- `series.median()`: middle element of the sorted values, or the mean of
the two middle elements when the count is even. -/
def median (l : List Rat) : Rat :=
  let s := sort_rats l
  let n := s.length
  if n = 0 then 0
  else if n % 2 = 1 then s.getD (n / 2) 0
  else (s.getD (n / 2 - 1) 0 + s.getD (n / 2) 0) / 2

/-- True ranges of the bars after the first; `prev` is the preceding bar,
whose close enters the true-range formula. -/
def true_ranges_rest (prev : Bar) : List Bar → List Rat
  | [] => []
  | b :: bs =>
      max (b.high - b.low) (max |b.high - prev.close| |b.low - prev.close|) ::
        true_ranges_rest b bs

/-- The per-bar true-range series of `compute_atr`: for the first bar
`close.shift()` is NaN and the pandas row-max skips it, leaving `high - low`. -/
def true_ranges : List Bar → List Rat
  | [] => []
  | b :: bs => (b.high - b.low) :: true_ranges_rest b bs

/-- `compute_atr(df, period)` of `bot.py`: mean of the trailing `period`
true ranges. -/
def compute_atr (df : List Bar) (period : Nat) : Rat :=
  let tr := tailN period (true_ranges df)
  if tr.length = 0 then 0 else tr.sum / (tr.length : Rat)

/-- `label_state(df)` of `bot.py`. -/
def label_state (df : List Bar) : String :=
  if df.length < 21 then "chaos"
  else
    let rng := df.map (fun b => b.high - b.low)
    let atr := rng.getLastD 0
    let atr_prev := rng.dropLast.getLastD 0
    let median_range := median (tailN 20 rng)
    let tl := df.drop (df.length - 20)
    let overlap := listMax (tl.map Bar.high) - listMin (tl.map Bar.low) ≤ median_range
    let new_high := (lastBar df).close > listMax ((window20 df).map Bar.high)
    let new_low := (lastBar df).close < listMin ((window20 df).map Bar.low)
    let atr_expanding := atr > atr_prev
    if atr ≤ (101 / 100) * median_range ∧ overlap then "consolidation"
    else if atr_expanding ∧ (new_high ∨ new_low) then
      (if new_high then "up" else "down")
    else "chaos"

/-- Round half to even, the rounding mode of Python's built-in `round`.  The
fractional part `x - floor x` equals `r / den` with `r = num - floor x * den`,
so the comparisons with one half are carried out on integers. -/
def roundHalfEven (x : Rat) : Int :=
  let f := Rat.floor x
  let r := x.num - f * (x.den : Int)
  if 2 * r < (x.den : Int) then f
  else if 2 * r > (x.den : Int) then f + 1
  else if f % 2 = 0 then f else f + 1

/-- `round(x, 8)`: round to eight decimal places, half to even. -/
def round8 (x : Rat) : Rat :=
  Rat.divInt (roundHalfEven (x * 100000000)) 100000000

/-- `position_size(usdc_balance, price, risk_pct)` of `bot.py`.  The division
`usd_risk / price` raises `ZeroDivisionError` in Python when `price == 0`;
the raise is modelled as `none`. -/
def position_size (usdc_balance price risk_pct : Rat) : Option Rat :=
  let usd_risk := usdc_balance * risk_pct
  if price = 0 then none
  else some (round8 (usd_risk / price))

/-- Key used by `ORDER BY id DESC`; stored rows always carry `some` id. -/
def id_val : Option Nat → Nat
  | none => 0
  | some n => n

/-- The row with the greatest id, i.e. `ORDER BY id DESC LIMIT 1`. -/
def pick_max_id (l : List Order) : Option Order :=
  l.foldl
    (fun best o =>
      match best with
      | none => some o
      | some b => if id_val b.id < id_val o.id then some o else some b)
    none

/-- `Database.last_open_order`: the open order with the greatest id. -/
def last_open_order (db : Database) : Option Order :=
  pick_max_id (db.orders.filter (fun o => o.status = "open"))

/-- `Database.record_order`: `INSERT OR REPLACE INTO orders`.  A `None` id is
assigned the autoincrement rowid; an explicit id replaces the row with that
id (or plainly inserts when no such row exists). -/
def record_order (db : Database) (order : Order) : Database :=
  match order.id with
  | none =>
      { orders := db.orders ++ [{ order with id := some db.nextId }],
        nextId := db.nextId + 1 }
  | some i =>
      { orders := db.orders.filter (fun o => o.id ≠ some i) ++ [order],
        nextId := db.nextId }

/-- `Database.close_order`: `UPDATE orders SET status='closed', ts=? WHERE id=?`. -/
def close_order (db : Database) (order_id : Option Nat) (ts : Int) : Database :=
  { db with
    orders := db.orders.map
      (fun o => if o.id = order_id then { o with status := "closed", ts := ts } else o) }

/-- Number of rows with `status='open'`. -/
def open_count (db : Database) : Nat :=
  (db.orders.filter (fun o => o.status = "open")).length

/-- A stored id is present and below the autoincrement counter. -/
def id_ok (nextId : Nat) : Option Nat → Bool
  | none => false
  | some n => n < nextId

/-- Invariant of the `orders` table as SQLite maintains it: every row has an
id below the `AUTOINCREMENT` counter, ids are unique, and at most one row is
open. -/
def DbInv (db : Database) : Prop :=
  (∀ o ∈ db.orders, id_ok db.nextId o.id = true) ∧
    (db.orders.map Order.id).Nodup ∧ open_count db ≤ 1

/-- The trailing stop/target recomputation (`bot.py` lines 265-270):
buy: `new_stop = max(stop, last_close - atr)`, `new_target = last_close + atr`;
sell: `new_stop = min(stop, last_close + atr)`, `new_target = last_close - atr`. -/
def trail_order (order : Order) (last_close atr : Rat) : Order :=
  if order.side = "buy" then
    { order with stop := max order.stop (last_close - atr), target := last_close + atr }
  else
    { order with stop := min order.stop (last_close + atr), target := last_close - atr }

/-- The trailing block of `trade_logic`: in an `up`/`down` regime the order is
re-recorded with the trailed stop/target when either changed. -/
def trail_step (db : Database) (order : Order) (state : String) (last_close atr : Rat) :
    Database × Order :=
  if state = "up" ∨ state = "down" then
    let o2 := trail_order order last_close atr
    if o2.stop ≠ order.stop ∨ o2.target ≠ order.target then (record_order db o2, o2)
    else (db, order)
  else (db, order)

/-- `hit_stop` of `trade_logic`: the current bar pierced the stop. -/
def hit_stop (order : Order) (bar : Bar) : Bool :=
  if order.side = "buy" then decide (bar.low ≤ order.stop)
  else decide (bar.high ≥ order.stop)

/-- `hit_target` of `trade_logic`: the current bar reached the target. -/
def hit_target (order : Order) (bar : Bar) : Bool :=
  if order.side = "buy" then decide (bar.high ≥ order.target)
  else decide (bar.low ≤ order.target)

/-- `state_flip` of `trade_logic`: the regime turned against the position. -/
def state_flip (state : String) (order : Order) : Bool :=
  decide ((state = "up" ∧ order.side = "sell") ∨
    (state = "down" ∧ order.side = "buy") ∨ state = "chaos")

/-- The realized pnl of a close at `last_close`:
`(last_close - price) * amount`, negated for the sell side. -/
def close_pnl (order : Order) (last_close : Rat) : Rat :=
  if order.side = "sell" then -((last_close - order.price) * order.amount)
  else (last_close - order.price) * order.amount

/-- The regime-keyed entry rules of `trade_logic` (lines 296-324):
`some (side, stop, target)` when an entry fires, `none` for hold. -/
def entry_signal (df : List Bar) (state : String) : Option (String × Rat × Rat) :=
  let last_close := (lastBar df).close
  let atr := compute_atr df 20
  let high20 := listMax ((window20 df).map Bar.high)
  let low20 := listMin ((window20 df).map Bar.low)
  let range_mid := (high20 + low20) / 2
  let range_size := high20 - low20
  if state = "consolidation" then
    let bottom_entry := low20 + (1 / 10) * range_size
    let top_entry := high20 - (1 / 10) * range_size
    if last_close ≤ bottom_entry then some ("buy", low20 - atr, range_mid)
    else if last_close ≥ top_entry then some ("sell", high20 + atr, range_mid)
    else none
  else if state = "up" then
    if last_close > high20 then some ("buy", high20 - atr, last_close + atr) else none
  else if state = "down" then
    if last_close < low20 then some ("sell", low20 + atr, last_close - atr) else none
  else none

/-- The entry half of `trade_logic` (from line 294 on).  `decision`/`pnl` are
the values those variables hold when control reaches the entry code;
`live_usdc` is the balance the exchange would report in live mode.  The
`position_size` call raises when `last_close = 0`, which aborts the cycle. -/
def entry_logic (db : Database) (df : List Bar) (state : String) (is_live : Bool)
    (risk_pct live_usdc : Rat) (decision : String) (pnl : Rat) : CycleResult :=
  let last_close := (lastBar df).close
  let usdc := if is_live then live_usdc else 1000
  match position_size usdc last_close risk_pct with
  | none => { db := db, out := none }
  | some amount =>
      match entry_signal df state with
      | none => { db := db, out := some (decision, pnl) }
      | some (side, stop, target) =>
          let order : Order :=
            { id := none, ts := (lastBar df).ts, side := side, price := last_close,
              amount := amount, stop := stop, target := target, status := "open" }
          { db := record_order db order, out := some (side, pnl) }

/-- `trade_logic(db, df, state, is_live, risk_pct)` of `bot.py`.  With an open
order: trail it in a trending regime, close it when the stop, the target or a
regime flip triggers and fall through to the entry code, otherwise return
`("hold", 0)`.  With no open order: straight to the entry code. -/
def trade_logic (db : Database) (df : List Bar) (state : String) (is_live : Bool)
    (risk_pct live_usdc : Rat) : CycleResult :=
  let last_close := (lastBar df).close
  let atr := compute_atr df 20
  match last_open_order db with
  | none => entry_logic db df state is_live risk_pct live_usdc "hold" 0
  | some order0 =>
      let s := trail_step db order0 state last_close atr
      let bar := lastBar df
      if hit_stop s.2 bar || hit_target s.2 bar || state_flip state s.2 then
        let pnl := close_pnl s.2 last_close
        let db2 := close_order s.1 s.2.id bar.ts
        entry_logic db2 df state is_live risk_pct live_usdc "close" pnl
      else { db := s.1, out := some ("hold", 0) }

/-- The inputs one decision cycle reads besides the database. -/
structure CycleIn where
  df : List Bar
  state : String
  is_live : Bool
  risk_pct : Rat
  live_usdc : Rat

/-- The database after a sequence of `trade_logic` cycles. -/
def run_cycles (db : Database) (ins : List CycleIn) : Database :=
  ins.foldl (fun d i => (trade_logic d i.df i.state i.is_live i.risk_pct i.live_usdc).db) db

/-- The process-lifetime risk state of `run_bot`: the live flag and the peak
equity. -/
structure BotState where
  is_live : Bool
  peak_equity : Rat
deriving DecidableEq

/-- The drawdown bookkeeping at the end of one `run_bot` loop iteration
(lines 345-350): raise the peak, and drop the live flag when the drawdown
reaches 10 percent while live. -/
def risk_step (s : BotState) (equity : Rat) : BotState :=
  let peak := max s.peak_equity equity
  let drawdown := (peak - equity) / peak
  let live := if drawdown ≥ 1 / 10 ∧ s.is_live = true then false else s.is_live
  { is_live := live, peak_equity := peak }

/-- The risk state after a run of ticks with the given equity readings. -/
def run_risk (s : BotState) (es : List Rat) : BotState :=
  es.foldl risk_step s

/-- A candle as returned by `fetch_ohlcv`, before integrity checks: any field
may be null. -/
structure RawBar where
  ts : Option Int
  bopen : Option Rat
  high : Option Rat
  low : Option Rat
  close : Option Rat
  volume : Option Rat
deriving DecidableEq

/-- `None in bar[:6]` of `fetch_new_candles`. -/
def has_null (b : RawBar) : Bool :=
  b.ts.isNone || b.bopen.isNone || b.high.isNone || b.low.isNone ||
    b.close.isNone || b.volume.isNone

/-- The distinct `ValueError`s `fetch_new_candles` raises. -/
inductive FetchErr where
  | noCandles
  | nullValue
  | dataGap
  | duplicateTs
deriving DecidableEq

/-- The per-bar loop of `fetch_new_candles`: null check, then gap check
against the previous fetched bar, collecting the timestamps. -/
def check_bars (w : Int) : List RawBar → Option Int → List Int → Except FetchErr (List Int)
  | [], _, acc => .ok acc.reverse
  | b :: rest, prev, acc =>
    if has_null b then .error .nullValue
    else
      match b.ts with
      | none => .error .nullValue
      | some ts =>
        match prev with
        | none => check_bars w rest (some ts) (ts :: acc)
        | some p =>
            if ts - p > w * 4 then .error .dataGap
            else check_bars w rest (some ts) (ts :: acc)

/-- `fetch_new_candles` of `bot.py`, given the bar width `w` (`TIMEFRAME_MS`),
the newest stored timestamp `last_ts` (`db.max_ts()`, 0 when the table is
empty) and the fetched candles.  On success it returns the candles that are
then stored; every integrity fault is a distinct `ValueError` raised before
`db.store_candles` runs. -/
def fetch_new_candles (w last_ts : Int) (bars : List RawBar) : Except FetchErr (List RawBar) :=
  if bars.isEmpty then .error .noCandles
  else
    match check_bars w bars none [] with
    | .error e => .error e
    | .ok tss =>
        if tss.length ≠ tss.dedup.length then .error .duplicateTs
        else if last_ts ≠ 0 ∧ tss.headD 0 - last_ts > w * 4 then .error .dataGap
        else .ok bars

/-- `Database.store_candles`: `INSERT OR IGNORE`, keyed by timestamp (pair and
timeframe are constants). -/
def store_candles (store : List RawBar) (bars : List RawBar) : List RawBar :=
  bars.foldl (fun st b => if st.any (fun c => c.ts = b.ts) then st else st ++ [b]) store

/-- One fetch cycle against the candle store: candles are stored only when
every integrity check passed. -/
def fetch_cycle_store (w last_ts : Int) (store : List RawBar) (bars : List RawBar) :
    List RawBar :=
  match fetch_new_candles w last_ts bars with
  | .ok bs => store_candles store bs
  | .error _ => store

/-- Bars, orders and databases used by the concrete witnesses and
counterexamples below. -/
def exBar1 : Bar := ⟨0, 100, 100, 90, 100, 1⟩

/-- Second example bar: a breakout bar closing above the previous high. -/
def exBar2 : Bar := ⟨1, 105, 110, 104, 110, 1⟩

/-- A two-bar frame whose last bar closes above the trailing high. -/
def exDf : List Bar := [exBar1, exBar2]

/-- An open sell order, about to be flipped by an `up` regime. -/
def exSellOrd : Order := ⟨some 1, 0, "sell", 100, 1, 120, 80, "open"⟩

/-- A ledger holding exactly the one open sell order. -/
def exDb : Database := ⟨[exSellOrd], 2⟩

/-- Helper bound: round half to even moves a rational by at most one half. -/
theorem abs_roundHalfEven_sub_le (x : Rat) : |(roundHalfEven x : Rat) - x| ≤ 1 / 2 := by
  have h1 : ((Rat.floor x : Int) : Rat) ≤ x := Int.floor_le x
  have h2 : x < ((Rat.floor x : Int) : Rat) + 1 := Int.lt_floor_add_one x
  have hd : ((x.den : Rat)) ≠ 0 := by exact_mod_cast x.den_nz
  have hdpos : (0 : Rat) < (x.den : Rat) := by exact_mod_cast x.den_pos
  have hnum : (x.num : Rat) = x * (x.den : Rat) := by
    have h := Rat.num_div_den x
    rw [div_eq_iff hd] at h
    exact h
  simp only [roundHalfEven]
  split_ifs with ha hb hc
  · have ha' : (2 : Rat) * ((x.num : Rat) - (Rat.floor x : Rat) * (x.den : Rat)) <
        (x.den : Rat) := by exact_mod_cast ha
    rw [hnum] at ha'
    have key : x - (Rat.floor x : Rat) < 1 / 2 := by nlinarith [ha', hdpos]
    rw [abs_le]
    constructor <;> linarith
  · have hb' : (x.den : Rat) <
        (2 : Rat) * ((x.num : Rat) - (Rat.floor x : Rat) * (x.den : Rat)) := by
      exact_mod_cast hb
    rw [hnum] at hb'
    have key : 1 / 2 < x - (Rat.floor x : Rat) := by nlinarith [hb', hdpos]
    rw [abs_le]
    push_cast
    constructor <;> linarith
  · have heq : 2 * (x.num - Rat.floor x * (x.den : Int)) = (x.den : Int) := by omega
    have heq' : (2 : Rat) * ((x.num : Rat) - (Rat.floor x : Rat) * (x.den : Rat)) =
        (x.den : Rat) := by exact_mod_cast heq
    rw [hnum] at heq'
    have hcancel : (2 * (x - (Rat.floor x : Rat))) * (x.den : Rat) = 1 * (x.den : Rat) := by
      ring_nf
      ring_nf at heq'
      linarith
    have key : 2 * (x - (Rat.floor x : Rat)) = 1 := mul_right_cancel₀ hd hcancel
    rw [abs_le]
    constructor <;> linarith
  · have heq : 2 * (x.num - Rat.floor x * (x.den : Int)) = (x.den : Int) := by omega
    have heq' : (2 : Rat) * ((x.num : Rat) - (Rat.floor x : Rat) * (x.den : Rat)) =
        (x.den : Rat) := by exact_mod_cast heq
    rw [hnum] at heq'
    have hcancel : (2 * (x - (Rat.floor x : Rat))) * (x.den : Rat) = 1 * (x.den : Rat) := by
      ring_nf
      ring_nf at heq'
      linarith
    have key : 2 * (x - (Rat.floor x : Rat)) = 1 := mul_right_cancel₀ hd hcancel
    rw [abs_le]
    push_cast
    constructor <;> linarith

/-- Helper bound: rounding to eight decimals moves a rational by at most half
of the last decimal. -/
theorem abs_round8_sub_le (x : Rat) : |round8 x - x| ≤ 1 / 200000000 := by
  have h := abs_roundHalfEven_sub_le (x * 100000000)
  rw [abs_le] at h
  simp only [round8, Rat.divInt_eq_div]
  rw [abs_le]
  push_cast
  constructor <;> linarith

/-- Helper: rounding fixes zero. -/
theorem round8_zero : round8 0 = 0 := by with_unfolding_all decide

/-- Control flow of `trade_logic` with no open order: straight to the entry
code with decision `hold` and pnl 0. -/
theorem trade_logic_flat (db : Database) (df : List Bar) (state : String) (is_live : Bool)
    (risk_pct live_usdc : Rat) (h : last_open_order db = none) :
    trade_logic db df state is_live risk_pct live_usdc =
      entry_logic db df state is_live risk_pct live_usdc "hold" 0 := by
  simp only [trade_logic, h]

/-- Control flow of `trade_logic` when the (possibly just trailed) open order
triggers an exit: the order is closed at the current bar and control falls
through to the entry code with decision `close` and the realized pnl. -/
theorem trade_logic_close_branch (db : Database) (df : List Bar) (state : String)
    (is_live : Bool) (risk_pct live_usdc : Rat) (o0 : Order)
    (h : last_open_order db = some o0)
    (htr : (hit_stop (trail_step db o0 state (lastBar df).close (compute_atr df 20)).2
              (lastBar df) ||
            hit_target (trail_step db o0 state (lastBar df).close (compute_atr df 20)).2
              (lastBar df) ||
            state_flip state
              (trail_step db o0 state (lastBar df).close (compute_atr df 20)).2) = true) :
    trade_logic db df state is_live risk_pct live_usdc =
      entry_logic
        (close_order (trail_step db o0 state (lastBar df).close (compute_atr df 20)).1
          (trail_step db o0 state (lastBar df).close (compute_atr df 20)).2.id (lastBar df).ts)
        df state is_live risk_pct live_usdc "close"
        (close_pnl (trail_step db o0 state (lastBar df).close (compute_atr df 20)).2
          (lastBar df).close) := by
  simp only [trade_logic, h, htr, if_true]

/-- Control flow of `trade_logic` when the open order does not trigger an
exit: the call returns `("hold", 0)` with only the trailing write applied. -/
theorem trade_logic_hold_branch (db : Database) (df : List Bar) (state : String)
    (is_live : Bool) (risk_pct live_usdc : Rat) (o0 : Order)
    (h : last_open_order db = some o0)
    (htr : (hit_stop (trail_step db o0 state (lastBar df).close (compute_atr df 20)).2
              (lastBar df) ||
            hit_target (trail_step db o0 state (lastBar df).close (compute_atr df 20)).2
              (lastBar df) ||
            state_flip state
              (trail_step db o0 state (lastBar df).close (compute_atr df 20)).2) = false) :
    trade_logic db df state is_live risk_pct live_usdc =
      ⟨(trail_step db o0 state (lastBar df).close (compute_atr df 20)).1,
        some ("hold", 0)⟩ := by
  simp only [trade_logic, h, htr, Bool.false_eq_true, if_false]

/-- Control flow of `entry_logic` when an entry signal fires: the new order is
recorded and the decision becomes the entry side. -/
theorem entry_logic_entry (db : Database) (df : List Bar) (state : String) (is_live : Bool)
    (risk_pct live_usdc : Rat) (decision : String) (pnl : Rat) (amt : Rat)
    (side : String) (stop target : Rat)
    (hps : position_size (if is_live then live_usdc else 1000) (lastBar df).close risk_pct =
      some amt)
    (hsig : entry_signal df state = some (side, stop, target)) :
    entry_logic db df state is_live risk_pct live_usdc decision pnl =
      ⟨record_order db
          ⟨none, (lastBar df).ts, side, (lastBar df).close, amt, stop, target, "open"⟩,
        some (side, pnl)⟩ := by
  simp only [entry_logic, hps, hsig]

/-- Control flow of `entry_logic` when no entry signal fires: the database is
untouched and the incoming decision and pnl are returned. -/
theorem entry_logic_no_signal (db : Database) (df : List Bar) (state : String)
    (is_live : Bool) (risk_pct live_usdc : Rat) (decision : String) (pnl : Rat) (amt : Rat)
    (hps : position_size (if is_live then live_usdc else 1000) (lastBar df).close risk_pct =
      some amt)
    (hsig : entry_signal df state = none) :
    entry_logic db df state is_live risk_pct live_usdc decision pnl =
      ⟨db, some (decision, pnl)⟩ := by
  simp only [entry_logic, hps, hsig]

/-- Control flow of `entry_logic` when `position_size` raises: the cycle
aborts with the database as already written. -/
theorem entry_logic_raise (db : Database) (df : List Bar) (state : String)
    (is_live : Bool) (risk_pct live_usdc : Rat) (decision : String) (pnl : Rat)
    (hps : position_size (if is_live then live_usdc else 1000) (lastBar df).close risk_pct =
      none) :
    entry_logic db df state is_live risk_pct live_usdc decision pnl = ⟨db, none⟩ := by
  simp only [entry_logic, hps]

/-- C5: for every bar window containing fewer than 21 bars, `label_state`
returns `chaos` unconditionally. -/
theorem label_state_short_is_chaos (df : List Bar) (h : df.length < 21) :
    label_state df = "chaos" := by
  unfold label_state
  simp [h]

/-- Witness for C5 at the empty window. -/
theorem label_state_short_is_chaos_witness : label_state [] = "chaos" :=
  label_state_short_is_chaos [] (by decide)

/-- C6 counterexample: with `price = 0` the division inside `position_size`
raises `ZeroDivisionError` (modelled as `none`) instead of returning 0. -/
theorem position_size_zero_price_raises : position_size 1 0 (1 / 100) = none := by
  with_unfolding_all decide

/-- C6 (amended): `position_size` returns 0 without raising when the balance
is 0 and the price is nonzero; when the price is 0 it raises
`ZeroDivisionError` for every balance and risk fraction. -/
theorem position_size_zero_inputs (price risk_pct : Rat) (h : price ≠ 0) :
    position_size 0 price risk_pct = some 0 ∧
      ∀ balance rp : Rat, position_size balance 0 rp = none := by
  constructor
  · simp only [position_size, if_neg h, zero_mul, zero_div, round8_zero]
  · intro balance rp
    simp [position_size]

/-- Witness for C6 at price 3, risk 1 percent. -/
theorem position_size_zero_inputs_witness :
    position_size 0 3 (1 / 100) = some 0 ∧
      ∀ balance rp : Rat, position_size balance 0 rp = none :=
  position_size_zero_inputs 3 (1 / 100) (by norm_num)

/-- C7 counterexample: at balance 1, price 1, risk 4e-9 the 8-decimal rounding
breaks exact linearity: `position_size(B,P,r)` is 0 but
`position_size(B,P,2r)/2` is 5e-9. -/
theorem position_size_not_exactly_linear :
    ¬ ((position_size 1 1 (4 / 1000000000)).getD 0 =
        (position_size 1 1 (8 / 1000000000)).getD 0 / 2) := by
  with_unfolding_all decide

/-- C7 (amended): the unrounded size `B * r / P` scales exactly linearly with
the risk fraction, and the rounded results `position_size(B,P,r)` and
`position_size(B,P,2r)/2` agree up to the 8-decimal rounding error, within
3/(4*10^8). -/
theorem position_size_linear_up_to_rounding (B P r : Rat) (hP : P ≠ 0) :
    B * r / P = B * (2 * r) / P / 2 ∧
      ∃ a b : Rat, position_size B P r = some a ∧ position_size B P (2 * r) = some b ∧
        |a - b / 2| ≤ 3 / 400000000 := by
  constructor
  · field_simp
    ring
  · refine ⟨round8 (B * r / P), round8 (B * (2 * r) / P), ?_, ?_, ?_⟩
    · simp only [position_size, if_neg hP]
    · simp only [position_size, if_neg hP]
    · have h1 := abs_round8_sub_le (B * r / P)
      have h2 := abs_round8_sub_le (B * (2 * r) / P)
      have hx : B * (2 * r) / P = 2 * (B * r / P) := by
        field_simp
        ring
      rw [abs_le] at h1 h2 ⊢
      constructor <;> linarith [hx]

/-- Witness for C7 at balance 1, price 1, risk 4e-9. -/
theorem position_size_linear_up_to_rounding_witness :
    (1 : Rat) * (4 / 1000000000) / 1 = 1 * (2 * (4 / 1000000000)) / 1 / 2 ∧
      ∃ a b : Rat, position_size 1 1 (4 / 1000000000) = some a ∧
        position_size 1 1 (2 * (4 / 1000000000)) = some b ∧
        |a - b / 2| ≤ 3 / 400000000 :=
  position_size_linear_up_to_rounding 1 1 (4 / 1000000000) (by norm_num)

/-- C8: the drawdown latch of `run_bot`.  In order: reaching a 10 percent
drawdown while live disables live mode; the step never turns the live flag
back on; once the flag is off it stays off for the whole remainder of the
run; and the peak equity is monotonically non-decreasing, per tick and across
any run. -/
theorem drawdown_latch :
    (∀ (s : BotState) (e : Rat), s.is_live = true →
        (1 : Rat) / 10 ≤ (max s.peak_equity e - e) / max s.peak_equity e →
        (risk_step s e).is_live = false) ∧
    (∀ (s : BotState) (e : Rat), (risk_step s e).is_live = true → s.is_live = true) ∧
    (∀ (s : BotState) (es : List Rat), s.is_live = false →
        (run_risk s es).is_live = false) ∧
    (∀ (s : BotState) (e : Rat), s.peak_equity ≤ (risk_step s e).peak_equity) ∧
    (∀ (s : BotState) (es : List Rat), s.peak_equity ≤ (run_risk s es).peak_equity) := by
  have hstep : ∀ (s : BotState) (e : Rat), (risk_step s e).is_live = true →
      s.is_live = true := by
    intro s e h
    simp only [risk_step] at h
    split at h
    · cases h
    · exact h
  have hpk : ∀ (s : BotState) (e : Rat), s.peak_equity ≤ (risk_step s e).peak_equity := by
    intro s e
    simp only [risk_step]
    exact le_max_left _ _
  refine ⟨?_, hstep, ?_, hpk, ?_⟩
  · intro s e hl hd
    simp only [risk_step]
    rw [if_pos ⟨hd, hl⟩]
  · intro s es
    induction es generalizing s with
    | nil => intro h; simpa [run_risk] using h
    | cons e rest ih =>
        intro h
        have h1 : (risk_step s e).is_live = false := by
          cases hv : (risk_step s e).is_live with
          | false => rfl
          | true => rw [hstep s e hv] at h; cases h
        simpa [run_risk] using ih (risk_step s e) h1
  · intro s es
    induction es generalizing s with
    | nil => simp [run_risk]
    | cons e rest ih =>
        calc s.peak_equity ≤ (risk_step s e).peak_equity := hpk s e
          _ ≤ (run_risk (risk_step s e) rest).peak_equity := ih (risk_step s e)
          _ = (run_risk s (e :: rest)).peak_equity := by simp [run_risk]

/-- C10: `close_order` touches only the status and ts columns of the targeted
row: every other column of every row, and every untargeted row, is unchanged;
the targeted row's ts is overwritten with the closing timestamp (so its
original open-timestamp is gone) and its status becomes closed. -/
theorem close_order_frame :
    ∀ (db : Database) (i : Option Nat) (ts : Int),
      (close_order db i ts).nextId = db.nextId ∧
      List.Forall₂
        (fun r r' : Order =>
          r'.id = r.id ∧ r'.side = r.side ∧ r'.price = r.price ∧ r'.amount = r.amount ∧
          r'.stop = r.stop ∧ r'.target = r.target ∧
          (r.id = i → r'.status = "closed" ∧ r'.ts = ts) ∧ (r.id ≠ i → r' = r))
        db.orders (close_order db i ts).orders := by
  intro db i ts
  refine ⟨rfl, ?_⟩
  have : (close_order db i ts).orders = db.orders.map
      (fun o => if o.id = i then { o with status := "closed", ts := ts } else o) := rfl
  rw [this, List.forall₂_map_right_iff, List.forall₂_same]
  intro r _
  by_cases hr : r.id = i
  · simp [hr]
  · simp [hr]

set_option maxRecDepth 40000 in
/-- C1 counterexample: a cycle that closes the open sell order on a regime
flip to `up` does not return with decision `close`: the entry logic runs on
the same bar, opens a new buy order, and the returned decision is `buy`. -/
theorem same_bar_reentry :
    (trade_logic exDb exDf "up" false (1 / 100) 0).out = some ("buy", -10) ∧
      (trade_logic exDb exDf "up" false (1 / 100) 0).db.orders.map Order.status =
        ["closed", "open"] ∧
      (trade_logic exDb exDf "up" false (1 / 100) 0).db.orders.map Order.side =
        ["sell", "buy"] := by
  have h1 : last_open_order exDb = some exSellOrd := by with_unfolding_all decide
  have hcond :
      (hit_stop (trail_step exDb exSellOrd "up" (lastBar exDf).close (compute_atr exDf 20)).2
          (lastBar exDf) ||
        hit_target (trail_step exDb exSellOrd "up" (lastBar exDf).close (compute_atr exDf 20)).2
          (lastBar exDf) ||
        state_flip "up"
          (trail_step exDb exSellOrd "up" (lastBar exDf).close (compute_atr exDf 20)).2) =
        true := by
    with_unfolding_all decide
  rw [trade_logic_close_branch exDb exDf "up" false (1 / 100) 0 exSellOrd h1 hcond]
  have hA : trail_step exDb exSellOrd "up" (lastBar exDf).close (compute_atr exDf 20) =
      (⟨[⟨some 1, 0, "sell", 100, 1, 120, 100, "open"⟩], 2⟩,
       ⟨some 1, 0, "sell", 100, 1, 120, 100, "open"⟩) := by
    with_unfolding_all decide
  rw [hA]
  dsimp only
  have hne : ¬ (lastBar exDf).close = 0 := by with_unfolding_all decide
  have hps : position_size (if (false : Bool) then (0 : Rat) else 1000)
      (lastBar exDf).close (1 / 100) =
      some (round8 ((if (false : Bool) then (0 : Rat) else 1000) * (1 / 100) /
        (lastBar exDf).close)) := by
    simp only [position_size, if_neg hne]
  have hsig : entry_signal exDf "up" = some ("buy", 90, 120) := by
    with_unfolding_all decide
  rw [entry_logic_entry _ exDf "up" false (1 / 100) 0 "close"
    (close_pnl (⟨some 1, 0, "sell", 100, 1, 120, 100, "open"⟩ : Order) (lastBar exDf).close)
    (round8 ((if (false : Bool) then (0 : Rat) else 1000) * (1 / 100) /
      (lastBar exDf).close))
    "buy" 90 120 hps hsig]
  have hts : (lastBar exDf).ts = 1 := by with_unfolding_all decide
  have hlc : (lastBar exDf).close = 110 := by with_unfolding_all decide
  rw [hts, hlc]
  have hpnl : close_pnl (⟨some 1, 0, "sell", 100, 1, 120, 100, "open"⟩ : Order) 110 = -10 := by
    with_unfolding_all decide
  rw [hpnl]
  have hclose : close_order
      (⟨[⟨some 1, 0, "sell", 100, 1, 120, 100, "open"⟩], 2⟩ : Database) (some 1) 1 =
      ⟨[⟨some 1, 1, "sell", 100, 1, 120, 100, "closed"⟩], 2⟩ := by
    with_unfolding_all decide
  rw [hclose]
  refine ⟨rfl, ?_, ?_⟩ <;> simp [record_order, List.map]

/-- Helper: the fold inside `pick_max_id` only ever returns a list element or
its starting accumulator. -/
theorem pick_max_id_fold_mem (l : List Order) : ∀ (acc : Option Order) (o : Order),
    List.foldl
      (fun best o' =>
        match best with
        | none => some o'
        | some b => if id_val b.id < id_val o'.id then some o' else some b)
      acc l = some o →
    o ∈ l ∨ acc = some o := by
  induction l with
  | nil =>
      intro acc o h
      right
      simpa using h
  | cons x xs ih =>
      intro acc o h
      simp only [List.foldl_cons] at h
      rcases ih _ o h with h1 | h1
      · exact Or.inl (List.mem_cons_of_mem _ h1)
      · cases acc with
        | none =>
            simp only at h1
            exact Or.inl (by simp [Option.some.injEq] at h1; simp [h1])
        | some b =>
            simp only at h1
            split_ifs at h1 with hlt
            · exact Or.inl (by simp [Option.some.injEq] at h1; simp [h1])
            · exact Or.inr h1

/-- Helper: the fold inside `pick_max_id` never forgets a `some` accumulator. -/
theorem pick_max_id_fold_some (l : List Order) : ∀ (b : Order),
    (List.foldl
      (fun best o' =>
        match best with
        | none => some o'
        | some b => if id_val b.id < id_val o'.id then some o' else some b)
      (some b) l).isSome = true := by
  induction l with
  | nil => intro b; rfl
  | cons x xs ih =>
      intro b
      simp only [List.foldl_cons]
      split_ifs <;> exact ih _

/-- Helper: `pick_max_id` returns an element of its input list. -/
theorem pick_max_id_mem (l : List Order) (o : Order) (h : pick_max_id l = some o) :
    o ∈ l := by
  rcases pick_max_id_fold_mem l none o h with h1 | h1
  · exact h1
  · cases h1

/-- Helper: `pick_max_id` returns `none` exactly on the empty list. -/
theorem pick_max_id_eq_none_iff (l : List Order) : pick_max_id l = none ↔ l = [] := by
  constructor
  · intro h
    cases l with
    | nil => rfl
    | cons x xs =>
        exfalso
        have hs := pick_max_id_fold_some xs x
        unfold pick_max_id at h
        simp only [List.foldl_cons] at h
        rw [h] at hs
        cases hs
  · intro h
    subst h
    rfl

/-- Helper: a `last_open_order` result is an open row of the table. -/
theorem last_open_order_mem (db : Database) (o : Order) (h : last_open_order db = some o) :
    o ∈ db.orders ∧ o.status = "open" := by
  have hm := pick_max_id_mem _ o h
  have := List.mem_filter.mp hm
  exact ⟨this.1, of_decide_eq_true this.2⟩

/-- Helper: `last_open_order` is `none` exactly when no row is open. -/
theorem last_open_order_eq_none_iff (db : Database) :
    last_open_order db = none ↔ db.orders.filter (fun r => r.status = "open") = [] := by
  unfold last_open_order
  exact pick_max_id_eq_none_iff _

/-- Helper: `trail_step` keeps the order's id, side, price, amount and status. -/
theorem trail_step_snd_fields (db : Database) (o : Order) (s : String) (lc atr : Rat) :
    (trail_step db o s lc atr).2.id = o.id ∧ (trail_step db o s lc atr).2.side = o.side ∧
      (trail_step db o s lc atr).2.price = o.price ∧
      (trail_step db o s lc atr).2.amount = o.amount ∧
      (trail_step db o s lc atr).2.status = o.status := by
  simp only [trail_step, trail_order]
  split_ifs <;> simp

/-- Helper: `trail_order` keeps the order's id, status, side, price, amount. -/
theorem trail_order_fields (o : Order) (lc atr : Rat) :
    (trail_order o lc atr).id = o.id ∧ (trail_order o lc atr).status = o.status ∧
      (trail_order o lc atr).side = o.side ∧ (trail_order o lc atr).price = o.price ∧
      (trail_order o lc atr).amount = o.amount := by
  simp only [trail_order]
  split_ifs <;> simp

/-- Helper: re-recording a trailed order keeps a row with the original id,
status and side in the table. -/
theorem record_order_mem_trail (db : Database) (o0 : Order) (lc atr : Rat)
    (hmem : o0 ∈ db.orders) :
    ∃ r ∈ (record_order db (trail_order o0 lc atr)).orders,
      r.id = o0.id ∧ r.status = o0.status ∧ r.side = o0.side := by
  obtain ⟨hid, hst, hsd, _, _⟩ := trail_order_fields o0 lc atr
  cases h2 : (trail_order o0 lc atr).id with
  | none =>
      refine ⟨o0, ?_, rfl, rfl, rfl⟩
      simp only [record_order, h2]
      exact List.mem_append_left _ hmem
  | some i =>
      refine ⟨trail_order o0 lc atr, ?_, hid, hst, hsd⟩
      simp only [record_order, h2]
      exact List.mem_append_right _ (by simp)

/-- Helper: after `trail_step` the table still holds a row with the order's
id, status and side. -/
theorem trail_step_fst_mem (db : Database) (o0 : Order) (s : String) (lc atr : Rat)
    (hmem : o0 ∈ db.orders) :
    ∃ r ∈ (trail_step db o0 s lc atr).1.orders,
      r.id = o0.id ∧ r.status = o0.status ∧ r.side = o0.side := by
  simp only [trail_step]
  split_ifs with h1 h2
  · exact record_order_mem_trail db o0 lc atr hmem
  · exact ⟨o0, hmem, rfl, rfl, rfl⟩
  · exact ⟨o0, hmem, rfl, rfl, rfl⟩

/-- Helper: `close_order` turns every row carrying the targeted id into a
closed row stamped with the given timestamp. -/
theorem close_order_mem (db : Database) (oid : Option Nat) (ts : Int) (r : Order)
    (hr : r ∈ db.orders) (hid : r.id = oid) :
    ∃ r2 ∈ (close_order db oid ts).orders,
      r2.id = r.id ∧ r2.status = "closed" ∧ r2.ts = ts := by
  refine ⟨(fun o => if o.id = oid then { o with status := "closed", ts := ts } else o) r,
    List.mem_map_of_mem _ hr, ?_⟩
  simp [hid]

/-- Helper: `entry_logic` never removes a row from the table. -/
theorem entry_logic_mem (db : Database) (df : List Bar) (state : String) (is_live : Bool)
    (risk_pct live_usdc : Rat) (decision : String) (pnl : Rat) (r : Order)
    (hr : r ∈ db.orders) :
    r ∈ (entry_logic db df state is_live risk_pct live_usdc decision pnl).db.orders := by
  cases hps : position_size (if is_live then live_usdc else 1000) (lastBar df).close risk_pct
    with
  | none => simpa [entry_logic, hps] using hr
  | some amt =>
      cases hsig : entry_signal df state with
      | none => simpa [entry_logic, hps, hsig] using hr
      | some t =>
          obtain ⟨side, stop, target⟩ := t
          simp only [entry_logic, hps, hsig, record_order]
          exact List.mem_append_left _ hr

/-- Helper: when the current close is nonzero, `entry_logic` returns normally
and passes its incoming pnl through unchanged. -/
theorem entry_logic_out (db : Database) (df : List Bar) (state : String) (is_live : Bool)
    (risk_pct live_usdc : Rat) (decision : String) (pnl : Rat)
    (hc : (lastBar df).close ≠ 0) :
    ∃ d, (entry_logic db df state is_live risk_pct live_usdc decision pnl).out =
      some (d, pnl) := by
  simp only [entry_logic, position_size, if_neg hc]
  cases hsig : entry_signal df state with
  | none => exact ⟨decision, by simp [hsig]⟩
  | some t =>
      obtain ⟨side, stop, target⟩ := t
      exact ⟨side, by simp [hsig]⟩

/-- C3: with an open order, the exit trigger of a cycle is evaluated on the
current bar's high and low whatever the regime.  Writing `o` for the order
after this cycle's trailing step, the close fires exactly when, for a buy,
`bar.low ≤ o.stop` or `bar.high ≥ o.target` (mirrored for a sell), or the
regime flipped against the side, or the regime is chaos.  When it fires the
targeted row is closed and stamped with the current bar's timestamp, and the
returned realized pnl is `(close - entry) * qty`, negated for a sell;
otherwise the cycle returns `("hold", 0)` and the row stays open. -/
theorem exit_trigger_characterization (db : Database) (df : List Bar) (state : String)
    (is_live : Bool) (risk_pct live_usdc : Rat) (o0 : Order)
    (ho : last_open_order db = some o0)
    (hside : o0.side = "buy" ∨ o0.side = "sell") :
    (((if o0.side = "buy" then
          (lastBar df).low ≤ (trail_step db o0 state (lastBar df).close
            (compute_atr df 20)).2.stop ∨
          (lastBar df).high ≥ (trail_step db o0 state (lastBar df).close
            (compute_atr df 20)).2.target
        else
          (lastBar df).high ≥ (trail_step db o0 state (lastBar df).close
            (compute_atr df 20)).2.stop ∨
          (lastBar df).low ≤ (trail_step db o0 state (lastBar df).close
            (compute_atr df 20)).2.target) ∨
       (state = "up" ∧ o0.side = "sell") ∨ (state = "down" ∧ o0.side = "buy") ∨
         state = "chaos") →
      (∃ oc ∈ (trade_logic db df state is_live risk_pct live_usdc).db.orders,
          oc.id = o0.id ∧ oc.status = "closed" ∧ oc.ts = (lastBar df).ts) ∧
        ((lastBar df).close ≠ 0 →
          ∃ d, (trade_logic db df state is_live risk_pct live_usdc).out =
            some (d,
              if o0.side = "sell" then
                -(((lastBar df).close - o0.price) * o0.amount)
              else ((lastBar df).close - o0.price) * o0.amount))) ∧
    (¬ ((if o0.side = "buy" then
          (lastBar df).low ≤ (trail_step db o0 state (lastBar df).close
            (compute_atr df 20)).2.stop ∨
          (lastBar df).high ≥ (trail_step db o0 state (lastBar df).close
            (compute_atr df 20)).2.target
        else
          (lastBar df).high ≥ (trail_step db o0 state (lastBar df).close
            (compute_atr df 20)).2.stop ∨
          (lastBar df).low ≤ (trail_step db o0 state (lastBar df).close
            (compute_atr df 20)).2.target) ∨
       (state = "up" ∧ o0.side = "sell") ∨ (state = "down" ∧ o0.side = "buy") ∨
         state = "chaos") →
      (trade_logic db df state is_live risk_pct live_usdc).out = some ("hold", 0) ∧
        ∃ oc ∈ (trade_logic db df state is_live risk_pct live_usdc).db.orders,
          oc.id = o0.id ∧ oc.status = "open") := by
  obtain ⟨hid, hsd, hpr, ham, hstt⟩ :=
    trail_step_snd_fields db o0 state (lastBar df).close (compute_atr df 20)
  have hmem := last_open_order_mem db o0 ho
  have hbool :
      (hit_stop (trail_step db o0 state (lastBar df).close (compute_atr df 20)).2
          (lastBar df) ||
        hit_target (trail_step db o0 state (lastBar df).close (compute_atr df 20)).2
          (lastBar df) ||
        state_flip state
          (trail_step db o0 state (lastBar df).close (compute_atr df 20)).2) = true ↔
      ((if o0.side = "buy" then
          (lastBar df).low ≤ (trail_step db o0 state (lastBar df).close
            (compute_atr df 20)).2.stop ∨
          (lastBar df).high ≥ (trail_step db o0 state (lastBar df).close
            (compute_atr df 20)).2.target
        else
          (lastBar df).high ≥ (trail_step db o0 state (lastBar df).close
            (compute_atr df 20)).2.stop ∨
          (lastBar df).low ≤ (trail_step db o0 state (lastBar df).close
            (compute_atr df 20)).2.target) ∨
       (state = "up" ∧ o0.side = "sell") ∨ (state = "down" ∧ o0.side = "buy") ∨
         state = "chaos") := by
    simp only [hit_stop, hit_target, state_flip, hsd, Bool.or_eq_true, decide_eq_true_eq]
    rcases hside with hb | hs
    · simp only [hb]
      simp [ge_iff_le, or_assoc]
    · simp only [hs]
      simp [ge_iff_le, or_assoc]
  by_cases htr :
      (hit_stop (trail_step db o0 state (lastBar df).close (compute_atr df 20)).2
          (lastBar df) ||
        hit_target (trail_step db o0 state (lastBar df).close (compute_atr df 20)).2
          (lastBar df) ||
        state_flip state
          (trail_step db o0 state (lastBar df).close (compute_atr df 20)).2) = true
  · have heq := trade_logic_close_branch db df state is_live risk_pct live_usdc o0 ho htr
    constructor
    · intro _
      constructor
      · obtain ⟨r, hrmem, hrid, hrst, hrsd⟩ :=
          trail_step_fst_mem db o0 state (lastBar df).close (compute_atr df 20) hmem.1
        obtain ⟨r2, hr2mem, hr2id, hr2st, hr2ts⟩ :=
          close_order_mem (trail_step db o0 state (lastBar df).close (compute_atr df 20)).1
            (trail_step db o0 state (lastBar df).close (compute_atr df 20)).2.id
            (lastBar df).ts r hrmem (by rw [hrid, hid])
        refine ⟨r2, ?_, ?_, hr2st, hr2ts⟩
        · rw [heq]
          exact entry_logic_mem _ df state is_live risk_pct live_usdc "close" _ r2 hr2mem
        · rw [hr2id, hrid]
      · intro hc
        rw [heq]
        obtain ⟨d, hd⟩ := entry_logic_out _ df state is_live risk_pct live_usdc "close"
          (close_pnl (trail_step db o0 state (lastBar df).close (compute_atr df 20)).2
            (lastBar df).close) hc
        refine ⟨d, ?_⟩
        rw [hd]
        have hpnl : close_pnl
            (trail_step db o0 state (lastBar df).close (compute_atr df 20)).2
            (lastBar df).close =
            (if o0.side = "sell" then -(((lastBar df).close - o0.price) * o0.amount)
             else ((lastBar df).close - o0.price) * o0.amount) := by
          simp only [close_pnl, hsd, hpr, ham]
        rw [hpnl]
    · intro hnT
      exact absurd (hbool.mp htr) hnT
  · have htr' :
        (hit_stop (trail_step db o0 state (lastBar df).close (compute_atr df 20)).2
            (lastBar df) ||
          hit_target (trail_step db o0 state (lastBar df).close (compute_atr df 20)).2
            (lastBar df) ||
          state_flip state
            (trail_step db o0 state (lastBar df).close (compute_atr df 20)).2) = false :=
      Bool.not_eq_true _ ▸ eq_false_of_ne_true htr
    have heq := trade_logic_hold_branch db df state is_live risk_pct live_usdc o0 ho htr'
    constructor
    · intro hT
      exact absurd (hbool.mpr hT) htr
    · intro _
      refine ⟨by rw [heq], ?_⟩
      obtain ⟨r, hrmem, hrid, hrst, hrsd⟩ :=
        trail_step_fst_mem db o0 state (lastBar df).close (compute_atr df 20) hmem.1
      refine ⟨r, ?_, hrid, ?_⟩
      · rw [heq]
        exact hrmem
      · rw [hrst, hmem.2]

/-- Helper: under the single-open invariant, `last_open_order` pins down the
whole list of open rows. -/
theorem opens_singleton (db : Database) (o0 : Order) (hc : open_count db ≤ 1)
    (h : last_open_order db = some o0) :
    db.orders.filter (fun r => r.status = "open") = [o0] := by
  have hm := pick_max_id_mem _ o0 h
  cases hf : db.orders.filter (fun r => r.status = "open") with
  | nil => rw [hf] at hm; cases hm
  | cons x xs =>
      have hx : xs = [] := by
        have hlen := hc
        rw [open_count, hf] at hlen
        simp only [List.length_cons] at hlen
        exact List.length_eq_zero.mp (by omega)
      subst hx
      rw [hf] at hm
      have : o0 = x := by simpa using hm
      rw [this]

/-- Helper: a row of a database satisfying the invariant carries a `some` id
below the autoincrement counter. -/
theorem mem_id_some (db : Database) (r : Order) (hInv : DbInv db) (hr : r ∈ db.orders) :
    ∃ i, r.id = some i ∧ i < db.nextId := by
  have := hInv.1 r hr
  cases hid : r.id with
  | none => rw [hid] at this; cases this
  | some i =>
      rw [hid] at this
      exact ⟨i, rfl, by simpa [id_ok] using this⟩

/-- Helper: `close_order` keeps the id column and the autoincrement counter. -/
theorem close_order_ids (db : Database) (oid : Option Nat) (ts : Int) :
    (close_order db oid ts).orders.map Order.id = db.orders.map Order.id ∧
      (close_order db oid ts).nextId = db.nextId := by
  refine ⟨?_, rfl⟩
  simp only [close_order, List.map_map]
  apply List.map_congr_left
  intro r _
  by_cases hit : r.id = oid <;> simp [hit]

/-- Helper: closing the id of the unique open row leaves no open row. -/
theorem close_order_opens_nil (db : Database) (o1 : Order) (ts : Int)
    (hop : db.orders.filter (fun r => r.status = "open") = [o1]) :
    (close_order db o1.id ts).orders.filter (fun r => r.status = "open") = [] := by
  apply List.filter_eq_nil_iff.mpr
  intro a ha
  simp only [close_order, List.mem_map] at ha
  obtain ⟨r, hr, hfr⟩ := ha
  by_cases hit : r.id = o1.id
  · rw [if_pos hit] at hfr
    rw [← hfr]
    simp
  · rw [if_neg hit] at hfr
    subst hfr
    intro hopen
    have hmem : r ∈ db.orders.filter (fun r => r.status = "open") :=
      List.mem_filter.mpr ⟨hr, hopen⟩
    rw [hop] at hmem
    have : r = o1 := by simpa using hmem
    exact hit (by rw [this])

/-- Helper: `close_order` preserves the database invariant. -/
theorem close_order_inv (db : Database) (oid : Option Nat) (ts : Int) (hInv : DbInv db) :
    (∀ o ∈ (close_order db oid ts).orders, id_ok (close_order db oid ts).nextId o.id = true) ∧
      ((close_order db oid ts).orders.map Order.id).Nodup := by
  obtain ⟨hids, hnext⟩ := close_order_ids db oid ts
  constructor
  · intro o hmem
    simp only [close_order, List.mem_map] at hmem
    obtain ⟨r, hr, hfr⟩ := hmem
    have hidr : o.id = r.id := by
      rw [← hfr]
      by_cases hit : r.id = oid <;> simp [hit]
    rw [hnext, hidr]
    exact hInv.1 r hr
  · rw [hids]
    exact hInv.2.1

/-- Helper: the trailing step preserves id soundness and id uniqueness, keeps
the autoincrement counter, and leaves exactly one open row, which carries the
open order's id. -/
theorem trail_step_inv (db : Database) (o0 : Order) (state : String) (lc atr : Rat)
    (hInv : DbInv db) (ho : last_open_order db = some o0) :
    (∀ o ∈ (trail_step db o0 state lc atr).1.orders,
        id_ok (trail_step db o0 state lc atr).1.nextId o.id = true) ∧
      ((trail_step db o0 state lc atr).1.orders.map Order.id).Nodup ∧
      (trail_step db o0 state lc atr).1.nextId = db.nextId ∧
      ∃ o1, (trail_step db o0 state lc atr).1.orders.filter
          (fun r => r.status = "open") = [o1] ∧ o1.id = o0.id := by
  have hmem := last_open_order_mem db o0 ho
  have hops := opens_singleton db o0 hInv.2.2 ho
  obtain ⟨i, hi, hilt⟩ := mem_id_some db o0 hInv hmem.1
  simp only [trail_step]
  split_ifs with h1 h2
  · obtain ⟨htid, htst, htsd, _, _⟩ := trail_order_fields o0 lc atr
    have htid2 : (trail_order o0 lc atr).id = some i := by rw [htid, hi]
    simp only [record_order, htid2]
    refine ⟨?_, ?_, by trivial, ?_⟩
    · intro o hmemo
      rcases List.mem_append.mp hmemo with hL | hR
      · exact hInv.1 o (List.mem_of_mem_filter hL)
      · have heq : o = trail_order o0 lc atr := by simpa using hR
        rw [heq, htid, hi]
        simp only [id_ok]
        exact decide_eq_true hilt
    · rw [List.map_append]
      apply List.Nodup.append
      · exact ((List.filter_sublist _).map Order.id).nodup hInv.2.1
      · simp
      · intro a ha hb
        have hb2 : a = some i := by
          simpa [htid2] using hb
        simp only [List.mem_map] at ha
        obtain ⟨r, hr, hrid⟩ := ha
        have hmf := List.mem_filter.mp hr
        have hne : r.id ≠ some i := of_decide_eq_true hmf.2
        exact hne (hrid.trans hb2)
    · refine ⟨trail_order o0 lc atr, ?_, htid⟩
      rw [List.filter_append]
      have hfA : (db.orders.filter (fun o => o.id ≠ some i)).filter
          (fun r => r.status = "open") = [] := by
        apply List.filter_eq_nil_iff.mpr
        intro r hr hropen
        have hmf := List.mem_filter.mp hr
        have hne : r.id ≠ some i := of_decide_eq_true hmf.2
        have hrop : r.status = "open" := of_decide_eq_true hropen
        have hmem2 : r ∈ db.orders.filter (fun r => r.status = "open") :=
          List.mem_filter.mpr ⟨hmf.1, by simpa using hrop⟩
        rw [hops] at hmem2
        have hro : r = o0 := by simpa using hmem2
        exact hne (by rw [hro, hi])
      rw [hfA]
      have hopen2 : (trail_order o0 lc atr).status = "open" := by rw [htst, hmem.2]
      simp [hopen2]
  · exact ⟨hInv.1, hInv.2.1, rfl, ⟨o0, hops, rfl⟩⟩
  · exact ⟨hInv.1, hInv.2.1, rfl, ⟨o0, hops, rfl⟩⟩

/-- Helper: `id_ok` is monotone in the autoincrement counter. -/
theorem id_ok_mono (n m : Nat) (oid : Option Nat) (h : id_ok n oid = true) (hnm : n ≤ m) :
    id_ok m oid = true := by
  cases oid with
  | none => cases h
  | some i =>
      simp only [id_ok] at h ⊢
      exact decide_eq_true (Nat.lt_of_lt_of_le (of_decide_eq_true h) hnm)

/-- Helper: recording a fresh open order (id `None`) on a table with no open
row restores the invariant with exactly one open row. -/
theorem record_none_entry_inv (db : Database) (o : Order) (hid : o.id = none)
    (hids : ∀ r ∈ db.orders, id_ok db.nextId r.id = true)
    (hnodup : (db.orders.map Order.id).Nodup)
    (hops : db.orders.filter (fun r => r.status = "open") = [])
    (hst : o.status = "open") :
    DbInv (record_order db o) ∧ open_count (record_order db o) = 1 := by
  simp only [record_order, hid]
  have hnew : ({ o with id := some db.nextId } : Order).id = some db.nextId := rfl
  refine ⟨⟨?_, ?_, ?_⟩, ?_⟩
  · intro r hmem
    rcases List.mem_append.mp hmem with hL | hR
    · exact id_ok_mono db.nextId (db.nextId + 1) r.id (hids r hL) (Nat.le_succ _)
    · have heq : r = { o with id := some db.nextId } := by simpa using hR
      rw [heq, hnew]
      simp only [id_ok]
      exact decide_eq_true (Nat.lt_succ_self _)
  · rw [List.map_append]
    apply List.Nodup.append
    · exact hnodup
    · simp
    · intro a ha hb
      have hb2 : a = some db.nextId := by simpa using hb
      simp only [List.mem_map] at ha
      obtain ⟨r, hr, hrid⟩ := ha
      have hok := hids r hr
      rw [hrid, hb2] at hok
      simp only [id_ok] at hok
      exact absurd (of_decide_eq_true hok) (Nat.lt_irrefl _)
  · show open_count _ ≤ 1
    rw [open_count]
    rw [List.filter_append, hops]
    simp [hst]
  · rw [open_count]
    rw [List.filter_append, hops]
    simp [hst]

/-- Helper: `entry_logic` restores the invariant on a table with no open row,
ending with at most one open row. -/
theorem entry_logic_inv (db : Database) (df : List Bar) (state : String) (is_live : Bool)
    (risk_pct live_usdc : Rat) (decision : String) (pnl : Rat)
    (hids : ∀ r ∈ db.orders, id_ok db.nextId r.id = true)
    (hnodup : (db.orders.map Order.id).Nodup)
    (hops : db.orders.filter (fun r => r.status = "open") = []) :
    DbInv (entry_logic db df state is_live risk_pct live_usdc decision pnl).db := by
  have hdb : DbInv db := ⟨hids, hnodup, by rw [open_count, hops]; exact Nat.zero_le 1⟩
  cases hps : position_size (if is_live then live_usdc else 1000) (lastBar df).close risk_pct
    with
  | none => simpa [entry_logic, hps] using hdb
  | some amt =>
      cases hsig : entry_signal df state with
      | none => simpa [entry_logic, hps, hsig] using hdb
      | some t =>
          obtain ⟨side, stop, target⟩ := t
          simp only [entry_logic, hps, hsig]
          exact (record_none_entry_inv db _ rfl hids hnodup hops rfl).1

/-- Helper: one `trade_logic` cycle preserves the database invariant. -/
theorem trade_logic_inv (db : Database) (df : List Bar) (state : String) (is_live : Bool)
    (risk_pct live_usdc : Rat) (hInv : DbInv db) :
    DbInv (trade_logic db df state is_live risk_pct live_usdc).db := by
  cases hloo : last_open_order db with
  | none =>
      rw [trade_logic_flat db df state is_live risk_pct live_usdc hloo]
      exact entry_logic_inv db df state is_live risk_pct live_usdc "hold" 0
        hInv.1 hInv.2.1 ((last_open_order_eq_none_iff db).mp hloo)
  | some o0 =>
      obtain ⟨hids1, hnd1, hnext1, o1, hops1, ho1id⟩ :=
        trail_step_inv db o0 state (lastBar df).close (compute_atr df 20) hInv hloo
      by_cases htr :
          (hit_stop (trail_step db o0 state (lastBar df).close (compute_atr df 20)).2
              (lastBar df) ||
            hit_target (trail_step db o0 state (lastBar df).close (compute_atr df 20)).2
              (lastBar df) ||
            state_flip state
              (trail_step db o0 state (lastBar df).close (compute_atr df 20)).2) = true
      · rw [trade_logic_close_branch db df state is_live risk_pct live_usdc o0 hloo htr]
        have hsid : (trail_step db o0 state (lastBar df).close (compute_atr df 20)).2.id =
            o0.id :=
          (trail_step_snd_fields db o0 state (lastBar df).close (compute_atr df 20)).1
        have hInv1 : DbInv (trail_step db o0 state (lastBar df).close (compute_atr df 20)).1 :=
          ⟨hids1, hnd1, by rw [open_count, hops1]; exact Nat.le_refl 1⟩
        obtain ⟨hids2, hnd2⟩ := close_order_inv
          (trail_step db o0 state (lastBar df).close (compute_atr df 20)).1
          (trail_step db o0 state (lastBar df).close (compute_atr df 20)).2.id
          (lastBar df).ts hInv1
        have hops2 : (close_order
            (trail_step db o0 state (lastBar df).close (compute_atr df 20)).1
            (trail_step db o0 state (lastBar df).close (compute_atr df 20)).2.id
            (lastBar df).ts).orders.filter (fun r => r.status = "open") = [] := by
          rw [hsid, ← ho1id]
          exact close_order_opens_nil _ o1 (lastBar df).ts hops1
        exact entry_logic_inv _ df state is_live risk_pct live_usdc "close" _
          hids2 hnd2 hops2
      · have htr2 :
            (hit_stop (trail_step db o0 state (lastBar df).close (compute_atr df 20)).2
                (lastBar df) ||
              hit_target (trail_step db o0 state (lastBar df).close (compute_atr df 20)).2
                (lastBar df) ||
              state_flip state
                (trail_step db o0 state (lastBar df).close (compute_atr df 20)).2) = false :=
          eq_false_of_ne_true htr
        rw [trade_logic_hold_branch db df state is_live risk_pct live_usdc o0 hloo htr2]
        exact ⟨hids1, hnd1, by rw [open_count, hops1]; exact Nat.le_refl 1⟩

/-- Helper: every row survives the trailing step with its id and side, either
untouched or replaced by the trailed version of the open order. -/
theorem trail_step_track (db : Database) (o0 : Order) (state : String) (lc atr : Rat)
    (hnodup : (db.orders.map Order.id).Nodup) (hmem0 : o0 ∈ db.orders) :
    ∀ r ∈ db.orders, ∃ r2 ∈ (trail_step db o0 state lc atr).1.orders,
      r2.id = r.id ∧ r2.side = r.side ∧
        (r2.stop = r.stop ∨ (r = o0 ∧ r2 = trail_order o0 lc atr)) := by
  intro r hr
  simp only [trail_step]
  split_ifs with h1 h2
  · obtain ⟨htid, htst, htsd, _, _⟩ := trail_order_fields o0 lc atr
    cases hoid : o0.id with
    | none =>
        have htid2 : (trail_order o0 lc atr).id = none := by rw [htid, hoid]
        simp only [record_order, htid2]
        exact ⟨r, List.mem_append_left _ hr, rfl, rfl, Or.inl rfl⟩
    | some i =>
        have htid2 : (trail_order o0 lc atr).id = some i := by rw [htid, hoid]
        simp only [record_order, htid2]
        by_cases hri : r.id = some i
        · have hro : r = o0 :=
            List.inj_on_of_nodup_map hnodup hr hmem0 (by rw [hri, hoid])
          refine ⟨trail_order o0 lc atr, List.mem_append_right _ (by simp), ?_, ?_,
            Or.inr ⟨hro, rfl⟩⟩
          · rw [htid, hro]
          · rw [htsd, hro]
        · refine ⟨r, List.mem_append_left _ ?_, rfl, rfl, Or.inl rfl⟩
          exact List.mem_filter.mpr ⟨hr, decide_eq_true hri⟩
  · exact ⟨r, hr, rfl, rfl, Or.inl rfl⟩
  · exact ⟨r, hr, rfl, rfl, Or.inl rfl⟩

/-- Helper: every row survives `close_order` with its id, side and stop. -/
theorem close_order_track (db : Database) (oid : Option Nat) (ts : Int) :
    ∀ r ∈ db.orders, ∃ r2 ∈ (close_order db oid ts).orders,
      r2.id = r.id ∧ r2.side = r.side ∧ r2.stop = r.stop := by
  intro r hr
  refine ⟨(fun o => if o.id = oid then { o with status := "closed", ts := ts } else o) r,
    List.mem_map_of_mem _ hr, ?_⟩
  by_cases hit : r.id = oid <;> simp [hit]

/-- Helper: an entry signal always carries side `buy` or `sell`. -/
theorem entry_signal_side (df : List Bar) (state : String) (s : String) (st tg : Rat)
    (h : entry_signal df state = some (s, st, tg)) : s = "buy" ∨ s = "sell" := by
  simp only [entry_signal] at h
  split_ifs at h <;>
    first
      | exact Or.inl (by simp only [Option.some.injEq, Prod.mk.injEq] at h; exact h.1.symm)
      | exact Or.inr (by simp only [Option.some.injEq, Prod.mk.injEq] at h; exact h.1.symm)

/-- C2: starting from an order ledger with no open order (any well-formed
SQLite table: unique row ids below the autoincrement counter, at most one row
open), every `trade_logic` cycle preserves the invariant, and after any
sequence of cycles at most one order has status open. -/
theorem single_open_invariant :
    (∀ (db : Database) (i : CycleIn), DbInv db →
        DbInv (trade_logic db i.df i.state i.is_live i.risk_pct i.live_usdc).db) ∧
    (∀ (db : Database) (ins : List CycleIn), DbInv db → open_count db = 0 →
        open_count (run_cycles db ins) ≤ 1) := by
  have hstep : ∀ (db : Database) (i : CycleIn), DbInv db →
      DbInv (trade_logic db i.df i.state i.is_live i.risk_pct i.live_usdc).db :=
    fun db i h => trade_logic_inv db i.df i.state i.is_live i.risk_pct i.live_usdc h
  refine ⟨hstep, ?_⟩
  intro db ins hInv hz
  clear hz
  suffices h : ∀ (d : Database), DbInv d → DbInv (run_cycles d ins) from (h db hInv).2.2
  induction ins with
  | nil =>
      intro d h
      simpa [run_cycles] using h
  | cons i rest ih =>
      intro d h
      have h1 := hstep d i h
      simpa [run_cycles, List.foldl_cons] using ih _ h1

/-- C4: in a trending regime the trailing step recomputes a buy order's stop
as `max(stop, close - atr)` and its target as `close + atr` (a sell order
mirrored with `min` and the signs reversed); independently of regime the
trailed stop never loosens, and across any whole `trade_logic` cycle each
order's row keeps its id and side while a buy stop never decreases and a sell
stop never increases. -/
theorem trailing_stop_monotone (db : Database) (df : List Bar) (state : String)
    (is_live : Bool) (risk_pct live_usdc : Rat) (hInv : DbInv db) :
    (∀ (o : Order) (lc atr : Rat), (state = "up" ∨ state = "down") →
      (o.side = "buy" →
        (trail_step db o state lc atr).2.stop = max o.stop (lc - atr) ∧
          (trail_step db o state lc atr).2.target = lc + atr) ∧
      (o.side ≠ "buy" →
        (trail_step db o state lc atr).2.stop = min o.stop (lc + atr) ∧
          (trail_step db o state lc atr).2.target = lc - atr)) ∧
    (∀ (o : Order) (lc atr : Rat),
      (o.side = "buy" → o.stop ≤ (trail_order o lc atr).stop) ∧
      (o.side ≠ "buy" → (trail_order o lc atr).stop ≤ o.stop)) ∧
    (∀ r ∈ db.orders,
      ∃ r2 ∈ (trade_logic db df state is_live risk_pct live_usdc).db.orders,
        r2.id = r.id ∧ r2.side = r.side ∧
          (r.side = "buy" → r.stop ≤ r2.stop) ∧ (r.side ≠ "buy" → r2.stop ≤ r.stop)) := by
  refine ⟨?_, ?_, ?_⟩
  · intro o lc atr hud
    have hts : (trail_step db o state lc atr).2.stop = (trail_order o lc atr).stop ∧
        (trail_step db o state lc atr).2.target = (trail_order o lc atr).target := by
      simp only [trail_step, if_pos hud]
      split_ifs with hch
      · exact ⟨rfl, rfl⟩
      · push_neg at hch
        exact ⟨hch.1.symm, hch.2.symm⟩
    constructor
    · intro hb
      rw [hts.1, hts.2]
      simp [trail_order, hb]
    · intro hnb
      rw [hts.1, hts.2]
      simp [trail_order, hnb]
  · intro o lc atr
    constructor
    · intro hb
      simp only [trail_order, if_pos hb]
      exact le_max_left _ _
    · intro hnb
      simp only [trail_order, if_neg hnb]
      exact min_le_left _ _
  · intro r hr
    cases hloo : last_open_order db with
    | none =>
        rw [trade_logic_flat db df state is_live risk_pct live_usdc hloo]
        exact ⟨r, entry_logic_mem db df state is_live risk_pct live_usdc "hold" 0 r hr,
          rfl, rfl, fun _ => le_refl _, fun _ => le_refl _⟩
    | some o0 =>
        have hmem0 := (last_open_order_mem db o0 hloo).1
        obtain ⟨r2, hr2mem, hr2id, hr2sd, hstop⟩ :=
          trail_step_track db o0 state (lastBar df).close (compute_atr df 20)
            hInv.2.1 hmem0 r hr
        have hmono : (r.side = "buy" → r.stop ≤ r2.stop) ∧
            (r.side ≠ "buy" → r2.stop ≤ r.stop) := by
          rcases hstop with he | ⟨hro, hr2t⟩
          · rw [he]
            exact ⟨fun _ => le_refl _, fun _ => le_refl _⟩
          · subst hro
            rw [hr2t]
            constructor
            · intro hb
              simp only [trail_order, if_pos hb]
              exact le_max_left _ _
            · intro hnb
              simp only [trail_order, if_neg hnb]
              exact min_le_left _ _
        by_cases htr :
            (hit_stop (trail_step db o0 state (lastBar df).close (compute_atr df 20)).2
                (lastBar df) ||
              hit_target (trail_step db o0 state (lastBar df).close (compute_atr df 20)).2
                (lastBar df) ||
              state_flip state
                (trail_step db o0 state (lastBar df).close (compute_atr df 20)).2) = true
        · rw [trade_logic_close_branch db df state is_live risk_pct live_usdc o0 hloo htr]
          obtain ⟨r3, hr3mem, hr3id, hr3sd, hr3stop⟩ :=
            close_order_track (trail_step db o0 state (lastBar df).close
                (compute_atr df 20)).1
              (trail_step db o0 state (lastBar df).close (compute_atr df 20)).2.id
              (lastBar df).ts r2 hr2mem
          refine ⟨r3, entry_logic_mem _ df state is_live risk_pct live_usdc "close" _ r3
            hr3mem, hr3id.trans hr2id, hr3sd.trans hr2sd, ?_, ?_⟩
          · intro hb
            rw [hr3stop]
            exact hmono.1 hb
          · intro hnb
            rw [hr3stop]
            exact hmono.2 hnb
        · have htr2 :
              (hit_stop (trail_step db o0 state (lastBar df).close (compute_atr df 20)).2
                  (lastBar df) ||
                hit_target (trail_step db o0 state (lastBar df).close
                  (compute_atr df 20)).2 (lastBar df) ||
                state_flip state
                  (trail_step db o0 state (lastBar df).close (compute_atr df 20)).2) =
                false :=
            eq_false_of_ne_true htr
          rw [trade_logic_hold_branch db df state is_live risk_pct live_usdc o0 hloo htr2]
          exact ⟨r2, hr2mem, hr2id, hr2sd, hmono.1, hmono.2⟩

/-- C1 (amended): when `trade_logic` closes the open order it does not return
immediately: control falls through to the entry logic on the same bar.  The
returned pnl is always the realized pnl of the close, and the decision label
is `close` exactly when no entry signal fires; when one fires, the decision
label is the new entry side instead. -/
theorem close_falls_through_to_entry (db : Database) (df : List Bar) (state : String)
    (is_live : Bool) (risk_pct live_usdc : Rat) (o0 : Order)
    (ho : last_open_order db = some o0)
    (htr : (hit_stop (trail_step db o0 state (lastBar df).close (compute_atr df 20)).2
              (lastBar df) ||
            hit_target (trail_step db o0 state (lastBar df).close (compute_atr df 20)).2
              (lastBar df) ||
            state_flip state
              (trail_step db o0 state (lastBar df).close (compute_atr df 20)).2) = true) :
    trade_logic db df state is_live risk_pct live_usdc =
      entry_logic
        (close_order (trail_step db o0 state (lastBar df).close (compute_atr df 20)).1
          (trail_step db o0 state (lastBar df).close (compute_atr df 20)).2.id
          (lastBar df).ts)
        df state is_live risk_pct live_usdc "close"
        (close_pnl (trail_step db o0 state (lastBar df).close (compute_atr df 20)).2
          (lastBar df).close) ∧
    ∀ d p, (trade_logic db df state is_live risk_pct live_usdc).out = some (d, p) →
      p = close_pnl (trail_step db o0 state (lastBar df).close (compute_atr df 20)).2
          (lastBar df).close ∧
        (d = "close" ↔ entry_signal df state = none) := by
  have heq := trade_logic_close_branch db df state is_live risk_pct live_usdc o0 ho htr
  refine ⟨heq, ?_⟩
  intro d p hout
  rw [heq] at hout
  cases hps : position_size (if is_live then live_usdc else 1000) (lastBar df).close risk_pct
    with
  | none =>
      rw [entry_logic_raise _ df state is_live risk_pct live_usdc "close" _ hps] at hout
      exact Option.noConfusion hout
  | some amt =>
      cases hsig : entry_signal df state with
      | none =>
          rw [entry_logic_no_signal _ df state is_live risk_pct live_usdc "close" _ amt
            hps hsig] at hout
          simp only [Option.some.injEq, Prod.mk.injEq] at hout
          exact ⟨hout.2.symm, iff_of_true hout.1.symm rfl⟩
      | some t =>
          obtain ⟨s, st, tg⟩ := t
          rw [entry_logic_entry _ df state is_live risk_pct live_usdc "close" _ amt s st tg
            hps hsig] at hout
          simp only [Option.some.injEq, Prod.mk.injEq] at hout
          have hside := entry_signal_side df state s st tg hsig
          refine ⟨hout.2.symm, ?_⟩
          apply iff_of_false
          · rw [← hout.1]
            rcases hside with h | h <;> rw [h] <;> simp
          · simp

/-- Witness for C1's amended theorem: the sell order of `exDb`, flipped by an
`up` regime on the breakout bar of `exDf`, falls through to the entry code. -/
theorem close_falls_through_to_entry_witness :
    trade_logic exDb exDf "up" false (1 / 100) 0 =
      entry_logic
        (close_order (trail_step exDb exSellOrd "up" (lastBar exDf).close
            (compute_atr exDf 20)).1
          (trail_step exDb exSellOrd "up" (lastBar exDf).close (compute_atr exDf 20)).2.id
          (lastBar exDf).ts)
        exDf "up" false (1 / 100) 0 "close"
        (close_pnl (trail_step exDb exSellOrd "up" (lastBar exDf).close
            (compute_atr exDf 20)).2 (lastBar exDf).close) :=
  (close_falls_through_to_entry exDb exDf "up" false (1 / 100) 0 exSellOrd
    (by with_unfolding_all decide) (by with_unfolding_all decide)).1

/-- Witness for C3: the flipped sell order of `exDb` is closed and stamped
with the current bar's timestamp. -/
theorem exit_trigger_characterization_witness :
    ∃ oc ∈ (trade_logic exDb exDf "up" false (1 / 100) 0).db.orders,
      oc.id = exSellOrd.id ∧ oc.status = "closed" ∧ oc.ts = (lastBar exDf).ts :=
  ((exit_trigger_characterization exDb exDf "up" false (1 / 100) 0 exSellOrd
      (by with_unfolding_all decide) (Or.inr rfl)).1
    (Or.inr (Or.inl ⟨rfl, rfl⟩))).1

/-- Witness for C4: the sell order of `exDb` keeps its id and side through a
full cycle and its stop does not increase. -/
theorem trailing_stop_monotone_witness :
    ∃ r2 ∈ (trade_logic exDb exDf "up" false (1 / 100) 0).db.orders,
      r2.id = exSellOrd.id ∧ r2.side = exSellOrd.side ∧
        (exSellOrd.side = "buy" → exSellOrd.stop ≤ r2.stop) ∧
        (exSellOrd.side ≠ "buy" → r2.stop ≤ exSellOrd.stop) :=
  (trailing_stop_monotone exDb exDf "up" false (1 / 100) 0
      (by unfold DbInv; with_unfolding_all decide)).2.2 exSellOrd
    (by with_unfolding_all decide)

/-- Helper: a bar that passes the null check has a timestamp. -/
theorem not_null_ts (b : RawBar) (h : has_null b = false) : ∃ t, b.ts = some t := by
  simp only [has_null, Bool.or_eq_false_iff] at h
  cases hts : b.ts with
  | none => rw [hts] at h; simp at h
  | some t => exact ⟨t, rfl⟩

/-- Helper: a null field anywhere in the fetched bars makes the check loop
raise. -/
theorem check_bars_null_error (w : Int) : ∀ (bars : List RawBar) (prev : Option Int)
    (acc : List Int), (∃ b ∈ bars, has_null b = true) →
    ∃ e, check_bars w bars prev acc = .error e := by
  intro bars
  induction bars with
  | nil =>
      intro prev acc h
      obtain ⟨b, hb, _⟩ := h
      cases hb
  | cons b rest ih =>
      intro prev acc h
      by_cases hnb : has_null b = true
      · exact ⟨.nullValue, by simp [check_bars, hnb]⟩
      · have hnb2 : has_null b = false := eq_false_of_ne_true hnb
        obtain ⟨t, ht⟩ := not_null_ts b hnb2
        have hrest : ∃ b2 ∈ rest, has_null b2 = true := by
          obtain ⟨b2, hb2, hb2n⟩ := h
          rcases List.mem_cons.mp hb2 with rfl | hmem
          · exact absurd hb2n hnb
          · exact ⟨b2, hmem, hb2n⟩
        cases prev with
        | none =>
            obtain ⟨e, he⟩ := ih (some t) (t :: acc) hrest
            exact ⟨e, by simp [check_bars, hnb2, ht, he]⟩
        | some p =>
            by_cases hgap : t - p > w * 4
            · exact ⟨.dataGap, by simp [check_bars, hnb2, ht, hgap]⟩
            · obtain ⟨e, he⟩ := ih (some t) (t :: acc) hrest
              exact ⟨e, by simp [check_bars, hnb2, ht, hgap, he]⟩

/-- Helper: on success the check loop returns the accumulated timestamps
followed by the bars' timestamps. -/
theorem check_bars_ok_ts (w : Int) : ∀ (bars : List RawBar) (prev : Option Int)
    (acc tss : List Int), check_bars w bars prev acc = .ok tss →
    tss = acc.reverse ++ bars.filterMap RawBar.ts := by
  intro bars
  induction bars with
  | nil =>
      intro prev acc tss h
      simp only [check_bars] at h
      simp only [Except.ok.injEq] at h
      simp [← h]
  | cons b rest ih =>
      intro prev acc tss h
      by_cases hnb : has_null b = true
      · simp [check_bars, hnb] at h
      · have hnb2 : has_null b = false := eq_false_of_ne_true hnb
        obtain ⟨t, ht⟩ := not_null_ts b hnb2
        cases prev with
        | none =>
            simp only [check_bars, hnb2, Bool.false_eq_true, if_false, ht] at h
            have := ih (some t) (t :: acc) tss h
            simp only [List.reverse_cons] at this
            simp [this, List.filterMap_cons, ht]
        | some p =>
            by_cases hgap : t - p > w * 4
            · simp [check_bars, hnb2, ht, hgap] at h
            · simp only [check_bars, hnb2, Bool.false_eq_true, if_false, ht,
                if_neg hgap] at h
              have := ih (some t) (t :: acc) tss h
              simp only [List.reverse_cons] at this
              simp [this, List.filterMap_cons, ht]

/-- Helper: on success every consecutive pair of fetched timestamps (and the
handed-in previous timestamp) is at most four bar widths apart. -/
theorem check_bars_ok_chain (w : Int) : ∀ (bars : List RawBar) (prev : Option Int)
    (acc tss : List Int), check_bars w bars prev acc = .ok tss →
    List.Chain' (fun a b => b - a ≤ w * 4) (prev.toList ++ bars.filterMap RawBar.ts) := by
  intro bars
  induction bars with
  | nil =>
      intro prev acc tss _
      cases prev <;> simp
  | cons b rest ih =>
      intro prev acc tss h
      by_cases hnb : has_null b = true
      · simp [check_bars, hnb] at h
      · have hnb2 : has_null b = false := eq_false_of_ne_true hnb
        obtain ⟨t, ht⟩ := not_null_ts b hnb2
        cases prev with
        | none =>
            simp only [check_bars, hnb2, Bool.false_eq_true, if_false, ht] at h
            have := ih (some t) (t :: acc) tss h
            simp only [Option.toList_some, List.singleton_append] at this
            simpa [List.filterMap_cons, ht] using this
        | some p =>
            by_cases hgap : t - p > w * 4
            · simp [check_bars, hnb2, ht, hgap] at h
            · simp only [check_bars, hnb2, Bool.false_eq_true, if_false, ht,
                if_neg hgap] at h
              have hch := ih (some t) (t :: acc) tss h
              simp only [Option.toList_some, List.singleton_append] at hch
              simp only [Option.toList_some, List.singleton_append,
                List.filterMap_cons, ht]
              exact List.chain'_cons.mpr ⟨by omega, hch⟩

/-- Helper: deduplication keeps the length exactly on duplicate-free lists. -/
theorem dedup_length_eq_iff (l : List Int) : l.dedup.length = l.length ↔ l.Nodup := by
  constructor
  · intro h
    have hs := List.dedup_sublist l
    have heq := hs.eq_of_length h
    rw [← heq]
    exact l.nodup_dedup
  · intro h
    rw [List.dedup_eq_self.mpr h]

/-- C9: when the fetched candle data contains a null field, duplicate
timestamps, or a time gap exceeding four bar widths (between consecutive
fetched bars, or between the newest stored bar and the first fetched one),
`fetch_new_candles` raises one of its distinct `ValueError`s, and since the
raise happens before `store_candles`, the cycle leaves the bar store
untouched — no partial state is applied. -/
theorem fetch_integrity (w last_ts : Int) (bars : List RawBar) (store : List RawBar)
    (h : (∃ b ∈ bars, has_null b = true) ∨
      ¬ (bars.filterMap RawBar.ts).Nodup ∨
      ¬ List.Chain' (fun a b => b - a ≤ w * 4) (bars.filterMap RawBar.ts) ∨
      (last_ts ≠ 0 ∧ ∃ t, (bars.filterMap RawBar.ts).head? = some t ∧ t - last_ts > w * 4)) :
    (∃ e, fetch_new_candles w last_ts bars = .error e) ∧
      fetch_cycle_store w last_ts store bars = store := by
  have hmain : ∃ e, fetch_new_candles w last_ts bars = .error e := by
    by_cases hemp : bars.isEmpty
    · exact ⟨.noCandles, by simp [fetch_new_candles, hemp]⟩
    · cases hcb : check_bars w bars none [] with
      | error e =>
          exact ⟨e, by simp [fetch_new_candles, hemp, hcb]⟩
      | ok tss =>
          have htss : tss = bars.filterMap RawBar.ts := by
            simpa using check_bars_ok_ts w bars none [] tss hcb
          have hchain := check_bars_ok_chain w bars none [] tss hcb
          simp only [Option.toList_none, List.nil_append] at hchain
          rcases h with hnull | hdup | hch | hhead
          · obtain ⟨e, he⟩ := check_bars_null_error w bars none [] hnull
            rw [he] at hcb
            cases hcb
          · have hcond : tss.length ≠ tss.dedup.length := by
              rw [htss]
              intro hlen
              exact hdup ((dedup_length_eq_iff _).mp hlen.symm)
            exact ⟨.duplicateTs, by simp [fetch_new_candles, hemp, hcb, hcond]⟩
          · exact absurd hchain hch
          · obtain ⟨hlt, t, hhd, hgap⟩ := hhead
            by_cases hcond : tss.length ≠ tss.dedup.length
            · exact ⟨.duplicateTs, by simp [fetch_new_candles, hemp, hcb, hcond]⟩
            · have hcond2 : last_ts ≠ 0 ∧ tss.headD 0 - last_ts > w * 4 := by
                refine ⟨hlt, ?_⟩
                rw [htss]
                rw [List.headD_eq_head?_getD, hhd]
                exact hgap
              refine ⟨.dataGap, ?_⟩
              simp only [fetch_new_candles, hemp, Bool.false_eq_true, if_false, hcb]
              rw [if_neg (by simpa using hcond), if_pos hcond2]
  obtain ⟨e, he⟩ := hmain
  refine ⟨⟨e, he⟩, ?_⟩
  simp [fetch_cycle_store, he]

/-- Witness for C9 at a one-bar fetch whose candle has a null timestamp. -/
theorem fetch_integrity_witness :
    (∃ e, fetch_new_candles 900000 0 [⟨none, some 1, some 2, some 0, some 1, some 3⟩] =
      .error e) ∧
      fetch_cycle_store 900000 0 [] [⟨none, some 1, some 2, some 0, some 1, some 3⟩] = [] :=
  fetch_integrity 900000 0 [⟨none, some 1, some 2, some 0, some 1, some 3⟩] []
    (Or.inl ⟨⟨none, some 1, some 2, some 0, some 1, some 3⟩, by simp, by decide⟩)
